import Mathlib

/-!
Verification of the Documenter dispatch and generation model of
`sphinx_gherkin/markup/autodoc.py` (the `sphinx-gherkin` repository).

The Python source is shallowly embedded as Lean definitions:

* the Gherkin keyword tree (`Keyword`, `DataTable`, `Docstring`, `Document`)
  mirrors the node attributes that `autodoc.py` reads;
* the stateful line emission of the `Documenter` hierarchy becomes explicit
  state passing over `GenState` (output line buffer, shared ref-context scope
  entry, recorded dependencies);
* the directive dispatcher `AutoKeywordDescription.run` becomes `run`,
  returning diagnostics plus either an unhandled exception value or the
  generated output lines;
* Python string operations used by the source (`strip`, `lstrip`, `lower`,
  `title`, `splitlines`, `split(":", 1)`) are given faithful counterparts.

Definitions whose doc comments start with `Modelled from the spec:` embed
collaborators of `autodoc.py` that live outside the analysed sources (the
gherkin parse tree module, the domain store, docutils option assembly, the
host registry); they follow the specification's description of those
boundaries.
-/

namespace SphinxGherkin

/-! ## Python string primitives -/

/-- Python `str.strip(chars)` restricted to a character predicate: drop the
matching characters from both ends. -/
def pyStripP (p : Char → Bool) (s : String) : String :=
  ⟨((s.data.dropWhile p).reverse.dropWhile p).reverse⟩

/-- Python `str.strip()`: drop whitespace from both ends. -/
def pyStrip (s : String) : String :=
  pyStripP Char.isWhitespace s

/-- Python `str.lstrip()`: drop leading whitespace. -/
def pyLStrip (s : String) : String :=
  ⟨s.data.dropWhile Char.isWhitespace⟩

/-- Python `str.lower()` (ASCII behaviour). -/
def pyLower (s : String) : String :=
  ⟨s.data.map Char.toLower⟩

/-- Helper for `pySplitlines`: split a character list on `'\n'`,
accumulating the current line in reverse. -/
def splitLinesAux : List Char → List Char → List String
  | [], acc => [⟨acc.reverse⟩]
  | c :: rest, acc =>
    if c = '\n' then (⟨acc.reverse⟩ : String) :: splitLinesAux rest []
    else splitLinesAux rest (c :: acc)

/-- Python `str.splitlines()` for newline-separated text: split on `'\n'`,
with no trailing empty item for a trailing newline. -/
def pySplitlines (s : String) : List String :=
  if s = "" then []
  else
    let parts := splitLinesAux s.data []
    if parts.getLast? = some "" then parts.dropLast else parts

/-- Helper for `pyTitle`: the Boolean argument records whether the previous
character was alphabetic. -/
def pyTitleAux : Bool → List Char → List Char
  | _, [] => []
  | prevAlpha, c :: cs =>
    (if c.isAlpha then (if prevAlpha then c.toLower else c.toUpper) else c)
      :: pyTitleAux c.isAlpha cs

/-- Python `str.title()` (ASCII behaviour): uppercase each letter that does
not follow a letter, lowercase the others. -/
def pyTitle (s : String) : String :=
  ⟨pyTitleAux false s.data⟩

/-- Association-list lookup, the shallow embedding of Python `dict`
indexing and membership over string keys. -/
def lookupAssoc {α : Type} (l : List (String × α)) (key : String) : Option α :=
  match l with
  | [] => none
  | (k, v) :: rest => if k = key then some v else lookupAssoc rest key

/-! ## The Gherkin keyword tree (boundary data model) -/

/-- Modelled from the spec: a Gherkin docstring carries a `mediatype`
(language tag for code-block rendering) and raw multi-line `content`
(spec section 3); `sphinx_gherkin.gherkin` is outside the analysed sources. -/
structure Docstring where
  mediatype : String
  content : String
deriving DecidableEq, Repr

/-- Modelled from the spec: a data table is an ordered sequence of rows,
each an ordered sequence of string cells (spec section 3). -/
structure DataTable where
  values : List (List String)
deriving DecidableEq, Repr

/-- Modelled from the spec: the parsed Gherkin keyword tree
(spec sections 2 and 3). Each constructor carries the literal keyword
label and the summary text that `autodoc.py` reads, plus the
variant-specific attributes it accesses: a Feature's description and
children, a Rule's children, a Background's steps, a Scenario's steps and
examples blocks, a Step's optional docstring and data table, and an
Examples block's data table. -/
inductive Keyword where
  | feature (keyword summary description : String) (children : List Keyword)
  | rule (keyword summary : String) (children : List Keyword)
  | background (keyword summary : String) (steps : List Keyword)
  | scenario (keyword summary : String) (steps : List Keyword) (examples : List Keyword)
  | step (keyword summary : String) (docstring : Option Docstring) (datatable : Option DataTable)
  | examples (keyword summary : String) (datatable : DataTable)

/-- The literal keyword label of a node (attribute `keyword`). -/
def Keyword.keyword : Keyword → String
  | .feature kw _ _ _ => kw
  | .rule kw _ _ => kw
  | .background kw _ _ => kw
  | .scenario kw _ _ _ => kw
  | .step kw _ _ _ => kw
  | .examples kw _ _ => kw

/-- The summary (short title/signature text) of a node (attribute `summary`). -/
def Keyword.summary : Keyword → String
  | .feature _ su _ _ => su
  | .rule _ su _ => su
  | .background _ su _ => su
  | .scenario _ su _ _ => su
  | .step _ su _ _ => su
  | .examples _ su _ => su

/-- The `objtype` tag of the Documenter class handling each keyword kind:
`FeatureDocumenter.objtype = "feature"`, `RuleDocumenter.objtype = "rule"`,
`BackgroundDocumenter.objtype = "background"`,
`ScenarioDocumenter.objtype = "scenario"`, `StepDocumenter.objtype = "step"`,
`ExamplesDocumenter.objtype = "examples"`. -/
def Keyword.objtype : Keyword → String
  | .feature _ _ _ _ => "feature"
  | .rule _ _ _ => "rule"
  | .background _ _ _ => "background"
  | .scenario _ _ _ _ => "scenario"
  | .step _ _ _ _ => "step"
  | .examples _ _ _ => "examples"

/-- The child keywords documented below each node, as returned by the
`get_child_keywords` override of the matching Documenter class: a Feature's
or Rule's `children`, a Background's `steps`, a Scenario's
`[*steps, *examples]`, and no children for Step and Examples. -/
def Keyword.get_child_keywords : Keyword → List Keyword
  | .feature _ _ _ children => children
  | .rule _ _ children => children
  | .background _ _ steps => steps
  | .scenario _ _ steps exs => steps ++ exs
  | .step _ _ _ _ => []
  | .examples _ _ _ => []

theorem list_sizeOf_append {α} [SizeOf α] (a b : List α) :
    sizeOf (a ++ b) + 1 = sizeOf a + sizeOf b := by
  induction a with
  | nil => simp; omega
  | cons x xs ih => simp [List.cons_append]; omega

theorem string_sizeOf_pos (s : String) : 0 < sizeOf s := by
  cases s; simp

theorem sizeOf_get_child_keywords (k : Keyword) :
    sizeOf k.get_child_keywords < sizeOf k := by
  cases k with
  | feature a b c cs => simp [Keyword.get_child_keywords]
  | rule a b cs => simp [Keyword.get_child_keywords]
  | background a b cs => simp [Keyword.get_child_keywords]
  | scenario a b st ex =>
      simp [Keyword.get_child_keywords]
      have := list_sizeOf_append st ex
      omega
  | step a b ds dt =>
      simp [Keyword.get_child_keywords]
      have := string_sizeOf_pos a
      omega
  | examples a b dt =>
      simp [Keyword.get_child_keywords]
      have := string_sizeOf_pos a
      omega

/-- Modelled from the spec: a `Document` (from `sphinx_gherkin.gherkin`,
outside the analysed sources) owns a stable `name` used as
source-location/dependency key, exactly one root `feature`, and provides
`get_ancestry(keyword)`, the ordered sequence of keywords from the given
node up to the Feature root, leaf-to-root (spec sections 3 and 6). The
ancestry lookup is kept as a function field because the analysed source
only consumes it. -/
structure Document where
  name : String
  feature : Keyword
  get_ancestry : Keyword → List Keyword

/-! ## Output lines and generation state -/

/-- One generated reST source line: the text appended to
`DocumenterBridge.result` together with its source attribution. -/
structure Line where
  text : String
  source : String
deriving DecidableEq, Repr

/-- The mutable state threaded through a generation walk: the shared output
buffer `bridge.result`, the shared ref-context entry
`env.ref_context["gherkin:scope"]`, and the dependency set
`bridge.record_dependencies`. -/
structure GenState where
  result : List Line
  scope : Option (List (String × String))
  deps : List String
deriving DecidableEq, Repr

/-- A fresh bridge state: empty output, no published scope, no recorded
dependencies. -/
def initState : GenState :=
  { result := [], scope := none, deps := [] }

/-- The fixed indentation unit `Documenter.content_indent = "    "`. -/
def content_indent : String := "    "

/-- Modelled from the spec: the name of the Gherkin domain
(`GherkinDomain.name`, outside the analysed sources); the directive header
prefix and the ref-context key both use it. -/
def domain_name : String := "gherkin"

/-- `Documenter.add_line` (lines 241 to 246 of `autodoc.py`): append one
line of generated reST; a line that is non-blank after `strip()` is
prefixed with the current indentation, a blank line is appended as the
empty string. -/
def add_line (indent line source : String) (s : GenState) : GenState :=
  if pyStrip line ≠ "" then
    { s with result := s.result ++ [{ text := indent ++ line, source := source }] }
  else
    { s with result := s.result ++ [{ text := "", source := source }] }

/-- `format_options`: every Documenter variant of `autodoc.py` overrides it
to return the empty dict, as does the base class. -/
def format_options (_k : Keyword) : List (String × String) :=
  []

/-- `get_directive_name`: the base implementation returns the variant's
`objtype`; `StepDocumenter` overrides it to
`self.keyword.keyword.strip().strip(":").lower()` (lines 376 to 377). -/
def get_directive_name (k : Keyword) : String :=
  match k with
  | .step kw _ _ _ => pyLower (pyStripP (fun c => c == ':') (pyStrip kw))
  | _ => k.objtype

/-- `Documenter.add_directive_header` (lines 251 to 261): emit
`.. <domain>:<directive-name>:: <sig>` at the current indent, then one
option line per formatted option. -/
def add_directive_header (doc : Document) (k : Keyword) (indent : String)
    (sig : String) (s : GenState) : GenState :=
  let s1 := add_line indent
    (".. " ++ domain_name ++ ":" ++ get_directive_name k ++ ":: " ++ sig)
    doc.name s
  (format_options k).foldl
    (fun st nv =>
      add_line indent (content_indent ++ ":" ++ nv.1 ++ ": " ++ nv.2) doc.name st)
    s1

/-- `Documenter.documented_keyword` (lines 230 to 239): the `(label, summary)`
pairs of the document ancestry of the current node, reversed, i.e. ordered
root-to-leaf. `DocumentedKeyword.from_other` is modelled as the pair list
itself. -/
def documented_keyword (doc : Document) (k : Keyword) : List (String × String) :=
  ((doc.get_ancestry k).reverse).map (fun w => (w.keyword, w.summary))

/-- The inner cell loop of `format_datatable` (lines 416 to 423): the first
cell of a row is emitted as `* - <cell>`, each subsequent cell as
`  - <cell>`, both one `content_indent` inside the current indent. -/
def format_row (doc : Document) (indent : String) :
    Bool → List String → GenState → GenState
  | _, [], s => s
  | first, cell :: rest, s =>
    if first then
      format_row doc indent false rest
        (add_line indent (content_indent ++ "* - " ++ cell) doc.name s)
    else
      format_row doc indent false rest
        (add_line indent (content_indent ++ "  - " ++ cell) doc.name s)

/-- `format_datatable` (lines 412 to 423): the `.. list-table::` marker, a
blank line, then the rows. -/
def format_datatable (doc : Document) (indent : String) (dt : DataTable)
    (s : GenState) : GenState :=
  let s1 := add_line indent ".. list-table::" doc.name s
  let s2 := add_line indent "" doc.name s1
  dt.values.foldl (fun st row => format_row doc indent true row st) s2

/-- `Documenter.add_content` (lines 289 to 292), the base implementation:
copy the supplementary body lines verbatim at the current indentation,
each with its original source attribution. -/
def base_add_content (indent : String) (more : List Line) (s : GenState) :
    GenState :=
  if more = [] then s
  else more.foldl (fun st cl => add_line indent cl.text cl.source st) s

/-- The `add_content` override of each Documenter variant:
`FeatureDocumenter` (lines 330 to 334) emits the feature description with
each line left-stripped, then the base content; `StepDocumenter`
(lines 379 to 394) emits the docstring as a code block when present, then
the data table when present, then the base content; `ExamplesDocumenter`
(lines 404 to 409) emits its data table then the base content; the other
variants only emit the base content. -/
def add_content (doc : Document) (k : Keyword) (indent : String)
    (more : List Line) (s : GenState) : GenState :=
  match k with
  | .feature _ _ description _ =>
      let s1 := (pySplitlines description).foldl
        (fun st line => add_line indent (pyLStrip line) doc.name st) s
      base_add_content indent more s1
  | .step _ _ docstring datatable =>
      let s1 :=
        match docstring with
        | some d =>
            let t1 := add_line indent (".. code-block:: " ++ d.mediatype) doc.name s
            let t2 := add_line indent "" doc.name t1
            let t3 := (pySplitlines d.content).foldl
              (fun st line => add_line indent (content_indent ++ line) doc.name st) t2
            add_line indent "" doc.name t3
        | none => s
      let s2 :=
        match datatable with
        | some dt => add_line indent "" doc.name (format_datatable doc indent dt s1)
        | none => s1
      base_add_content indent more s2
  | .examples _ _ dt =>
      let s1 := add_line indent "" doc.name (format_datatable doc indent dt s)
      base_add_content indent more s1
  | _ => base_add_content indent more s

/-- `self.bridge.record_dependencies.add(self.gherkin_document.name)`
(line 298): add the document name to the dependency set. -/
def record_dependency (doc : Document) (s : GenState) : GenState :=
  if doc.name ∈ s.deps then s else { s with deps := s.deps ++ [doc.name] }

/-- Publication of the documented-keyword scope snapshot
(`self.env.ref_context["gherkin:scope"] = self.documented_keyword`,
lines 309 to 311). -/
def set_scope (snapshot : List (String × String)) (s : GenState) : GenState :=
  { s with scope := some snapshot }

/-- The member-independent part of `Documenter.generate` (lines 294 to 314):
record the document dependency, emit the directive header for the node's
summary and a blank line, increase the indentation by one unit, publish the
documented-keyword scope, emit the variant content followed by the
supplementary body lines, and emit a closing blank line. -/
def genOwn (doc : Document) (k : Keyword) (indent : String) (more : List Line)
    (s : GenState) : GenState :=
  let s1 := record_dependency doc s
  let s2 := add_directive_header doc k indent k.summary s1
  let s3 := add_line indent "" doc.name s2
  let indent2 := indent ++ content_indent
  let s4 := set_scope (documented_keyword doc k) s3
  let s5 := add_content doc k indent2 more s4
  add_line indent2 "" doc.name s5

mutual
/-- `Documenter.generate` (lines 294 to 317): the header/content phase
(`genOwn`) followed by `document_members` (lines 263 to 278), which
re-dispatches every child keyword to the Documenter registered for its
class at the increased indentation. The registry is modelled by the fixed
class-to-objtype mapping that `setup` installs, so the child walk recurses
directly; child invocations pass no supplementary content
(`documenter.generate()` on line 273). -/
def generate (doc : Document) (k : Keyword) (indent : String) (more : List Line)
    (s : GenState) : GenState :=
  genChildren doc k.get_child_keywords (indent ++ content_indent)
    (genOwn doc k indent more s)
termination_by sizeOf k
decreasing_by
  exact sizeOf_get_child_keywords k

/-- The loop of `Documenter.document_members` (lines 263 to 278): generate
each child keyword in order, threading the shared bridge state. -/
def genChildren (doc : Document) (cs : List Keyword) (indent : String)
    (s : GenState) : GenState :=
  match cs with
  | [] => s
  | c :: rest => genChildren doc rest indent (generate doc c indent [] s)
termination_by sizeOf cs
decreasing_by
  all_goals (simp <;> omega)
end

/-- The last node visited by the recursive generation walk below a node:
the node itself when it has no child keywords, otherwise the last
descendant of its last child. -/
def lastDescendant (k : Keyword) : Keyword :=
  match h : k.get_child_keywords.getLast? with
  | none => k
  | some c => lastDescendant c
termination_by sizeOf k
decreasing_by
  have hm : c ∈ k.get_child_keywords := by
    obtain ⟨hne, hc⟩ := List.mem_getLast?_eq_getLast (Option.mem_def.2 h)
    exact hc ▸ List.getLast_mem hne
  exact Nat.lt_trans (List.sizeOf_lt_of_mem hm) (sizeOf_get_child_keywords k)

/-! ## The directive dispatcher -/

/-- Python exception values that can escape or be caught by
`AutoKeywordDescription.run`: `KeyError`, `ValueError` and `TypeError`
(the kinds its `except` clause names), plus the not-found error of the
document store's `find_one`. -/
inductive PyExn where
  | keyError (msg : String)
  | valueError (msg : String)
  | typeError (msg : String)
  | notFound (msg : String)
deriving DecidableEq, Repr

/-- The message carried by an exception value. -/
def pyExnMessage : PyExn → String
  | .keyError m => m
  | .valueError m => m
  | .typeError m => m
  | .notFound m => m

/-- Whether an exception is caught by
`except (KeyError, ValueError, TypeError)` on line 102 of `autodoc.py`. -/
def catchableOptionError : PyExn → Bool
  | .keyError _ => true
  | .valueError _ => true
  | .typeError _ => true
  | .notFound _ => false

/-- The data `run` reads from a registered Documenter class: its declared
`option_spec`, an option-name-indexed table of value converters. A
converter returns the coerced value, or `none` for a value that fails
type coercion (docutils converters signal that with `ValueError`). -/
structure DocumenterClass where
  option_spec : List (String × (String → Option String))

/-- Modelled from the spec: docutils `assemble_option_dict`, consumed on
lines 96 to 101 of `autodoc.py`, validates the raw options against the
resolved Documenter's `option_spec`: an unknown option name raises
`KeyError`, a value failing type coercion raises `ValueError`
(spec section 4.1 step 2). -/
def assemble_option_dict (opts : List (String × String))
    (spec : List (String × (String → Option String))) :
    Except PyExn (List (String × String)) :=
  match opts with
  | [] => .ok []
  | (nm, val) :: rest =>
    match lookupAssoc spec nm with
    | none => .error (.keyError nm)
    | some conv =>
      match conv val with
      | none => .error (.valueError nm)
      | some v =>
        match assemble_option_dict rest spec with
        | .error e => .error e
        | .ok vs => .ok ((nm, v) :: vs)

/-- A recoverable diagnostic reported through `log.error`, associated with
the originating `(docname, line)` location. -/
structure Diagnostic where
  message : String
  docname : String
  line : Option Nat
deriving DecidableEq, Repr

/-- The observable outcome of one directive invocation: the diagnostics it
reported, and either the returned output or the unhandled exception that
escaped `run`. -/
structure RunResult where
  diagnostics : List Diagnostic
  outcome : Except PyExn (List Line)
deriving Repr

/-- The invocation data of one autodoc directive: its invocation `name`,
the originating document and line used for diagnostics, the raw option
block, and the directive body (`self.content`). -/
structure Directive where
  name : String
  docname : String
  lineno : Option Nat
  options : List (String × String)
  content : List Line

/-- The error message format of lines 104 to 108 of `autodoc.py`. -/
def option_error_message (name : String) (e : PyExn) : String :=
  "An option to " ++ name ++ " is either unknown or has an invalid value: "
    ++ pyExnMessage e

/-- The `keyword` property of `AutoKeywordDescription` (lines 71 to 79):
split the invocation name on the first colon when one occurs past the
first four characters, drop the four-character `auto` head of the local
name, and title-case the remainder. -/
def directive_keyword (name : String) : String :=
  let directivename :=
    if (name.data.drop 4).contains ':' then
      match name.data.dropWhile (fun c => c != ':') with
      | [] => name
      | _ :: rest => (⟨rest⟩ : String)
    else name
  pyTitle ⟨directivename.data.drop 4⟩

/-- Modelled from the spec: `keyword_to_objtype` of
`sphinx_gherkin/__init__.py` is outside the analysed sources; the spec
says it translates a human keyword label to the internal object-type tag
naming a Documenter (spec section 4.1 step 1). It is modelled as
lowercasing with spaces hyphenated, which maps each keyword label to the
matching Documenter `objtype` tag. -/
def keyword_to_objtype (label : String) : String :=
  ⟨(pyLower label).data.map (fun c => if c = ' ' then '-' else c)⟩

/-- `AutoKeywordDescription.run` (lines 81 to 129). The directive's
declared keyword label (the virtual `keyword` property) and the resolved
`(Document, Keyword)` definition (the virtual `get_gherkin_definition`,
whose fallible result is `get_def`) are passed in, mirroring the dynamic
dispatch. Step by step: resolve the objtype and look the Documenter up in
the registry — an unregistered tag raises `KeyError` out of `run`, since
the lookup on lines 91 to 93 is outside the `try` block; assemble the
options — a `KeyError`, `ValueError` or `TypeError` is reported as one
diagnostic located at `(docname, lineno)` and the directive returns empty
output; resolve the definition — its error propagates; generate with the
directive body as supplementary content on a fresh bridge; return no
output when nothing was emitted, else the generated lines
(`parse_generated_content` is the host's markup parser and is modelled as
the identity on the emitted lines). -/
def run (documenters : List (String × DocumenterClass)) (d : Directive)
    (kw_label : String) (get_def : Except PyExn (Document × Keyword)) :
    RunResult :=
  let objtype := keyword_to_objtype kw_label
  match lookupAssoc documenters objtype with
  | none => { diagnostics := [], outcome := .error (.keyError objtype) }
  | some dc =>
    match assemble_option_dict d.options dc.option_spec with
    | .error e =>
      if catchableOptionError e then
        { diagnostics := [{ message := option_error_message d.name e,
                            docname := d.docname, line := d.lineno }],
          outcome := .ok [] }
      else { diagnostics := [], outcome := .error e }
    | .ok _documenter_options =>
      match get_def with
      | .error e => { diagnostics := [], outcome := .error e }
      | .ok (document, kw) =>
        let bridge := generate document kw "" d.content initState
        if bridge.result = [] then { diagnostics := [], outcome := .ok [] }
        else { diagnostics := [], outcome := .ok bridge.result }

/-! ## Reference resolution -/

/-- Modelled from the spec: the name-indexed document store
(`gherkin_domain.gherkin_documents`, outside the analysed sources). It
holds the path-keyed `documents` mapping and the fully-qualified
`find_one` lookup, which fails with a not-found error when the reference
does not resolve (spec sections 3 and 6); `find_one` is kept as a function
field because the analysed source only consumes it. -/
structure DocumentStore where
  documents : List (String × Document)
  find_one : String → Except PyExn (Document × Keyword)

/-- Modelled from the spec: `pathlib` `joinpath` of a configured source
root and a reference string, as used on line 159 of `autodoc.py`; an
absolute reference replaces the root. -/
def joinpath (root sig : String) : String :=
  if sig.data.head? = some '/' then sig else root ++ "/" ++ sig

/-- Modelled from the spec: `KeywordDirectiveMixin.get_name`, applied to
the directive argument before the default fully-qualified lookup
(line 144); the reference is already the fully-qualified keyword path
(spec section 4.1 step 3). -/
def get_name (reference : String) : String :=
  reference

/-- The default `AutoKeywordDescription.get_gherkin_definition`
(lines 143 to 148): resolve the reference through the store's single
`find_one` lookup. -/
def auto_keyword_get_gherkin_definition (store : DocumentStore)
    (sig : String) : Except PyExn (Document × Keyword) :=
  store.find_one (get_name sig)

/-- The root-membership loop of `AutoFeatureDescription.get_gherkin_definition`
(lines 158 to 163): for each configured source root in order, join the
root with the reference and return the first document stored under the
joined path. -/
def feature_member_loop (documents : List (String × Document))
    (roots : List String) (sig : String) : Option Document :=
  match roots with
  | [] => none
  | r :: rest =>
    let candidate := joinpath r sig
    match lookupAssoc documents candidate with
    | some document => some document
    | none => feature_member_loop documents rest sig

/-- `AutoFeatureDescription.get_gherkin_definition` (lines 154 to 167):
when a configured root matches, return that document and its root feature;
otherwise the loop's `for`/`else` raises `KeyError(sig)`, which the
`except KeyError` handler turns into the default fully-qualified lookup. -/
def auto_feature_get_gherkin_definition (store : DocumentStore)
    (roots : List String) (sig : String) : Except PyExn (Document × Keyword) :=
  match feature_member_loop store.documents roots sig with
  | some document => .ok (document, document.feature)
  | none => auto_keyword_get_gherkin_definition store sig


/-! ## Closed emission forms

Each emission primitive of the Documenter hierarchy appends a block of
lines that depends only on its arguments, never on the incoming state.
The `...Delta` functions give those blocks in closed form and the
`..._result` lemmas prove them against the state-passing code; the
`..._scope` lemmas record that only `set_scope` touches the published
scope entry. -/

/-- The single line appended by one `add_line` call. -/
def emittedLine (indent line source : String) : Line :=
  if pyStrip line ≠ "" then { text := indent ++ line, source := source }
  else { text := "", source := source }

theorem add_line_result (i l src : String) (s : GenState) :
    (add_line i l src s).result = s.result ++ [emittedLine i l src] := by
  unfold add_line emittedLine
  split <;> rfl

theorem add_line_scope (i l src : String) (s : GenState) :
    (add_line i l src s).scope = s.scope := by
  unfold add_line
  split <;> rfl

theorem foldl_add_line_result {α : Type} (f g : α → String) (i : String)
    (l : List α) (s : GenState) :
    (l.foldl (fun st x => add_line i (f x) (g x) st) s).result
      = s.result ++ l.map (fun x => emittedLine i (f x) (g x)) := by
  induction l generalizing s with
  | nil => simp
  | cons c rest ih =>
      simp only [List.foldl_cons, List.map_cons]
      rw [ih, add_line_result]
      simp

theorem foldl_add_line_scope {α : Type} (f g : α → String) (i : String)
    (l : List α) (s : GenState) :
    (l.foldl (fun st x => add_line i (f x) (g x) st) s).scope = s.scope := by
  induction l generalizing s with
  | nil => rfl
  | cons c rest ih =>
      simp only [List.foldl_cons]
      rw [ih, add_line_scope]

/-- The block appended for one data-table row, with the leading-cell flag. -/
def rowDelta (doc : Document) (i : String) : Bool → List String → List Line
  | _, [] => []
  | first, cell :: rest =>
    (if first then emittedLine i (content_indent ++ "* - " ++ cell) doc.name
     else emittedLine i (content_indent ++ "  - " ++ cell) doc.name)
      :: rowDelta doc i false rest

theorem format_row_result (doc : Document) (i : String) (b : Bool)
    (row : List String) (s : GenState) :
    (format_row doc i b row s).result = s.result ++ rowDelta doc i b row := by
  induction row generalizing b s with
  | nil => simp [format_row, rowDelta]
  | cons cell rest ih =>
      cases b <;>
        simp only [format_row, rowDelta, Bool.false_eq_true, ite_false, ite_true] <;>
        rw [ih, add_line_result] <;> simp

theorem format_row_scope (doc : Document) (i : String) (b : Bool)
    (row : List String) (s : GenState) :
    (format_row doc i b row s).scope = s.scope := by
  induction row generalizing b s with
  | nil => cases b <;> simp [format_row]
  | cons cell rest ih =>
      cases b <;>
        simp only [format_row, Bool.false_eq_true, ite_false, ite_true] <;>
        rw [ih, add_line_scope]

/-- The block appended for a sequence of data-table rows. -/
def rowsDelta (doc : Document) (i : String) : List (List String) → List Line
  | [] => []
  | row :: rest => rowDelta doc i true row ++ rowsDelta doc i rest

theorem foldl_format_row_result (doc : Document) (i : String)
    (rows : List (List String)) (s : GenState) :
    (rows.foldl (fun st row => format_row doc i true row st) s).result
      = s.result ++ rowsDelta doc i rows := by
  induction rows generalizing s with
  | nil => simp [rowsDelta]
  | cons row rest ih =>
      simp only [List.foldl_cons, rowsDelta]
      rw [ih, format_row_result]
      simp

theorem foldl_format_row_scope (doc : Document) (i : String)
    (rows : List (List String)) (s : GenState) :
    (rows.foldl (fun st row => format_row doc i true row st) s).scope
      = s.scope := by
  induction rows generalizing s with
  | nil => rfl
  | cons row rest ih =>
      simp only [List.foldl_cons]
      rw [ih, format_row_scope]

/-- The block appended by `format_datatable`: the list-table marker, a blank
line, then the rows. -/
def datatableDelta (doc : Document) (i : String) (dt : DataTable) : List Line :=
  emittedLine i ".. list-table::" doc.name
    :: emittedLine i "" doc.name
    :: rowsDelta doc i dt.values

theorem format_datatable_result (doc : Document) (i : String) (dt : DataTable)
    (s : GenState) :
    (format_datatable doc i dt s).result = s.result ++ datatableDelta doc i dt := by
  unfold format_datatable datatableDelta
  rw [foldl_format_row_result, add_line_result, add_line_result]
  simp

theorem format_datatable_scope (doc : Document) (i : String) (dt : DataTable)
    (s : GenState) :
    (format_datatable doc i dt s).scope = s.scope := by
  unfold format_datatable
  rw [foldl_format_row_scope, add_line_scope, add_line_scope]

/-- The block appended by the base `add_content` for the supplementary body
lines. -/
def baseContentDelta (i : String) (more : List Line) : List Line :=
  if more = [] then []
  else more.map (fun cl => emittedLine i cl.text cl.source)

theorem base_add_content_result (i : String) (more : List Line) (s : GenState) :
    (base_add_content i more s).result = s.result ++ baseContentDelta i more := by
  unfold base_add_content baseContentDelta
  split
  · simp
  · exact foldl_add_line_result (fun cl => cl.text) (fun cl => cl.source) i more s

theorem base_add_content_scope (i : String) (more : List Line) (s : GenState) :
    (base_add_content i more s).scope = s.scope := by
  unfold base_add_content
  split
  · rfl
  · exact foldl_add_line_scope (fun cl => cl.text) (fun cl => cl.source) i more s

/-- The block appended for a Step's docstring: the labeled code-block
opener, a blank line, the content lines one unit deeper, a blank line;
nothing when there is no docstring. -/
def docstringDelta (doc : Document) (i : String) : Option Docstring → List Line
  | some d =>
    emittedLine i (".. code-block:: " ++ d.mediatype) doc.name
      :: emittedLine i "" doc.name
      :: ((pySplitlines d.content).map
            (fun line => emittedLine i (content_indent ++ line) doc.name)
          ++ [emittedLine i "" doc.name])
  | none => []

/-- The block appended for a Step's data table: the rendered table then a
blank line; nothing when there is no data table. -/
def stepTableDelta (doc : Document) (i : String) : Option DataTable → List Line
  | some t => datatableDelta doc i t ++ [emittedLine i "" doc.name]
  | none => []

/-- The block appended by each variant's `add_content` override. -/
def contentDelta (doc : Document) (k : Keyword) (i : String) (more : List Line) :
    List Line :=
  match k with
  | .feature _ _ de _ =>
      (pySplitlines de).map (fun line => emittedLine i (pyLStrip line) doc.name)
        ++ baseContentDelta i more
  | .step _ _ ds dt =>
      docstringDelta doc i ds ++ stepTableDelta doc i dt ++ baseContentDelta i more
  | .examples _ _ dt =>
      datatableDelta doc i dt ++ [emittedLine i "" doc.name]
        ++ baseContentDelta i more
  | _ => baseContentDelta i more

theorem add_content_result (doc : Document) (k : Keyword) (i : String)
    (more : List Line) (s : GenState) :
    (add_content doc k i more s).result = s.result ++ contentDelta doc k i more := by
  cases k with
  | feature kw su de cs =>
      unfold add_content contentDelta
      rw [base_add_content_result,
        foldl_add_line_result (fun line => pyLStrip line) (fun _ => doc.name)]
      simp
  | step kw su ds dt =>
      unfold add_content contentDelta
      cases ds <;> cases dt <;>
        simp only [docstringDelta, stepTableDelta] <;>
        (try rw [base_add_content_result]) <;>
        (try rw [add_line_result]) <;>
        (try rw [format_datatable_result]) <;>
        (try rw [add_line_result]) <;>
        (try rw [add_line_result]) <;>
        (try rw [foldl_add_line_result (fun line => content_indent ++ line) (fun _ => doc.name)]) <;>
        (try rw [add_line_result]) <;>
        (try rw [add_line_result]) <;>
        simp
  | examples kw su dt =>
      unfold add_content contentDelta
      rw [base_add_content_result, add_line_result, format_datatable_result]
      simp
  | rule kw su cs =>
      unfold add_content contentDelta
      rw [base_add_content_result]
  | background kw su cs =>
      unfold add_content contentDelta
      rw [base_add_content_result]
  | scenario kw su st ex =>
      unfold add_content contentDelta
      rw [base_add_content_result]

theorem add_content_scope (doc : Document) (k : Keyword) (i : String)
    (more : List Line) (s : GenState) :
    (add_content doc k i more s).scope = s.scope := by
  cases k with
  | feature kw su de cs =>
      unfold add_content
      rw [base_add_content_scope,
        foldl_add_line_scope (fun line => pyLStrip line) (fun _ => doc.name)]
  | step kw su ds dt =>
      unfold add_content
      cases ds <;> cases dt <;>
        rw [base_add_content_scope] <;>
        (try rw [add_line_scope]) <;>
        (try rw [format_datatable_scope]) <;>
        (try rw [add_line_scope]) <;>
        (try rw [foldl_add_line_scope (fun line => content_indent ++ line) (fun _ => doc.name)]) <;>
        (try rw [add_line_scope]) <;>
        (try rw [add_line_scope])
  | examples kw su dt =>
      unfold add_content
      rw [base_add_content_scope, add_line_scope, format_datatable_scope]
  | rule kw su cs =>
      unfold add_content
      rw [base_add_content_scope]
  | background kw su cs =>
      unfold add_content
      rw [base_add_content_scope]
  | scenario kw su st ex =>
      unfold add_content
      rw [base_add_content_scope]

/-- The block appended by `add_directive_header`: the directive header line
followed by one line per formatted option. -/
def headerDelta (doc : Document) (k : Keyword) (i sig : String) : List Line :=
  emittedLine i
      (".. " ++ domain_name ++ ":" ++ get_directive_name k ++ ":: " ++ sig)
      doc.name
    :: (format_options k).map
        (fun nv => emittedLine i (content_indent ++ ":" ++ nv.1 ++ ": " ++ nv.2) doc.name)

theorem add_directive_header_result (doc : Document) (k : Keyword)
    (i sig : String) (s : GenState) :
    (add_directive_header doc k i sig s).result
      = s.result ++ headerDelta doc k i sig := by
  unfold add_directive_header headerDelta
  dsimp only
  rw [@foldl_add_line_result (String × String)
      (fun nv => content_indent ++ ":" ++ nv.1 ++ ": " ++ nv.2)
      (fun _ => doc.name) i (format_options k),
    add_line_result]
  simp

theorem add_directive_header_scope (doc : Document) (k : Keyword)
    (i sig : String) (s : GenState) :
    (add_directive_header doc k i sig s).scope = s.scope := by
  unfold add_directive_header
  dsimp only
  rw [@foldl_add_line_scope (String × String)
      (fun nv => content_indent ++ ":" ++ nv.1 ++ ": " ++ nv.2)
      (fun _ => doc.name) i (format_options k),
    add_line_scope]

theorem record_dependency_result (doc : Document) (s : GenState) :
    (record_dependency doc s).result = s.result := by
  unfold record_dependency
  split <;> rfl

theorem record_dependency_scope (doc : Document) (s : GenState) :
    (record_dependency doc s).scope = s.scope := by
  unfold record_dependency
  split <;> rfl

theorem set_scope_result (snapshot : List (String × String)) (s : GenState) :
    (set_scope snapshot s).result = s.result := rfl

theorem set_scope_scope (snapshot : List (String × String)) (s : GenState) :
    (set_scope snapshot s).scope = some snapshot := rfl

/-- The block appended by the header/content phase of `generate` for one
node: the directive header at the node's indent, a blank line, the
variant content one unit deeper, and a closing blank line. -/
def ownDelta (doc : Document) (k : Keyword) (i : String) (more : List Line) :
    List Line :=
  headerDelta doc k i k.summary
    ++ [emittedLine i "" doc.name]
    ++ contentDelta doc k (i ++ content_indent) more
    ++ [emittedLine (i ++ content_indent) "" doc.name]

theorem genOwn_result (doc : Document) (k : Keyword) (i : String)
    (more : List Line) (s : GenState) :
    (genOwn doc k i more s).result = s.result ++ ownDelta doc k i more := by
  unfold genOwn ownDelta
  rw [add_line_result, add_content_result, set_scope_result, add_line_result,
    add_directive_header_result, record_dependency_result]
  simp

theorem genOwn_scope (doc : Document) (k : Keyword) (i : String)
    (more : List Line) (s : GenState) :
    (genOwn doc k i more s).scope = some (documented_keyword doc k) := by
  unfold genOwn
  rw [add_line_scope, add_content_scope, set_scope_scope]

mutual
/-- The block of lines appended by `generate` for one node: its own
header/content block followed by the blocks of its children, one
indentation unit deeper. -/
def genDelta (doc : Document) (k : Keyword) (i : String) (more : List Line) :
    List Line :=
  ownDelta doc k i more
    ++ childrenDelta doc k.get_child_keywords (i ++ content_indent)
termination_by sizeOf k
decreasing_by
  exact sizeOf_get_child_keywords k

/-- The block of lines appended by the `document_members` walk over a child
list. -/
def childrenDelta (doc : Document) (cs : List Keyword) (i : String) : List Line :=
  match cs with
  | [] => []
  | c :: rest => genDelta doc c i [] ++ childrenDelta doc rest i
termination_by sizeOf cs
decreasing_by
  all_goals (simp <;> omega)
end

mutual
theorem generate_result (doc : Document) (k : Keyword) (i : String)
    (more : List Line) (s : GenState) :
    (generate doc k i more s).result = s.result ++ genDelta doc k i more := by
  rw [generate, genDelta, genChildren_result, genOwn_result]
  simp
termination_by sizeOf k
decreasing_by
  exact sizeOf_get_child_keywords k

theorem genChildren_result (doc : Document) (cs : List Keyword) (i : String)
    (s : GenState) :
    (genChildren doc cs i s).result = s.result ++ childrenDelta doc cs i := by
  match cs with
  | [] =>
      rw [genChildren, childrenDelta]
      simp
  | c :: rest =>
      rw [genChildren, childrenDelta, genChildren_result, generate_result]
      simp
termination_by sizeOf cs
decreasing_by
  all_goals (simp <;> omega)
end

/-! ## The published scope through the recursive walk -/

theorem lastDescendant_of_getLast?_none (k : Keyword)
    (h : k.get_child_keywords.getLast? = none) : lastDescendant k = k := by
  rw [lastDescendant]
  split
  · rfl
  · rename_i c hc
    rw [h] at hc
    cases hc

theorem lastDescendant_of_getLast?_some (k c : Keyword)
    (h : k.get_child_keywords.getLast? = some c) :
    lastDescendant k = lastDescendant c := by
  rw [lastDescendant]
  split
  · rename_i hc
    rw [h] at hc
    cases hc
  · rename_i c' hc
    rw [h] at hc
    cases hc
    rfl

mutual
theorem generate_scope (doc : Document) (k : Keyword) (i : String)
    (more : List Line) (s : GenState) :
    (generate doc k i more s).scope
      = some (documented_keyword doc (lastDescendant k)) := by
  rw [generate, genChildren_scope]
  cases h : k.get_child_keywords.getLast? with
  | none =>
      rw [lastDescendant_of_getLast?_none k h]
      simp [genOwn_scope]
  | some c =>
      rw [lastDescendant_of_getLast?_some k c h]
      simp
termination_by sizeOf k
decreasing_by
  exact sizeOf_get_child_keywords k

theorem genChildren_scope (doc : Document) (cs : List Keyword) (i : String)
    (s : GenState) :
    (genChildren doc cs i s).scope
      = (cs.getLast?).elim s.scope
          (fun c => some (documented_keyword doc (lastDescendant c))) := by
  match cs with
  | [] =>
      rw [genChildren]
      rfl
  | c :: rest =>
      rw [genChildren, genChildren_scope doc rest i (generate doc c i [] s)]
      cases rest with
      | nil =>
          rw [generate_scope doc c i [] s]
          simp
      | cons c' rest' =>
          rw [List.getLast?_cons_cons]
          cases hx : (c' :: rest').getLast? with
          | none =>
              rw [List.getLast?_eq_none_iff] at hx
              cases hx
          | some x => simp
termination_by sizeOf cs
decreasing_by
  all_goals (simp <;> omega)
end

theorem childrenDelta_append (doc : Document) (a b : List Keyword) (i : String) :
    childrenDelta doc (a ++ b) i = childrenDelta doc a i ++ childrenDelta doc b i := by
  induction a with
  | nil => simp [childrenDelta]
  | cons c rest ih =>
      rw [List.cons_append, childrenDelta, childrenDelta, ih]
      simp

/-! ## Non-blank lines keep their indentation -/

theorem mem_dropWhile_of_not {α : Type} (p : α → Bool) (l : List α) (c : α)
    (hc : c ∈ l) (hp : p c = false) : c ∈ l.dropWhile p := by
  induction l with
  | nil => cases hc
  | cons a rest ih =>
      rw [List.dropWhile_cons]
      by_cases hpa : p a
      · simp only [hpa, ite_true]
        rcases List.mem_cons.1 hc with hca | hcr
        · rw [hca] at hp
          rw [hp] at hpa
          cases hpa
        · exact ih hcr
      · simp only [hpa, ite_false]
        exact hc

theorem pyStrip_ne_empty (s : String) (c : Char) (hc : c ∈ s.data)
    (hp : Char.isWhitespace c = false) : pyStrip s ≠ "" := by
  unfold pyStrip pyStripP
  intro h
  have hdata :
      (((s.data.dropWhile Char.isWhitespace).reverse.dropWhile
          Char.isWhitespace).reverse) = [] := by
    have := congrArg String.data h
    simpa using this
  have h1 : c ∈ s.data.dropWhile Char.isWhitespace :=
    mem_dropWhile_of_not _ _ _ hc hp
  have h2 : c ∈ (s.data.dropWhile Char.isWhitespace).reverse :=
    List.mem_reverse.2 h1
  have h3 : c ∈ (s.data.dropWhile Char.isWhitespace).reverse.dropWhile
      Char.isWhitespace :=
    mem_dropWhile_of_not _ _ _ h2 hp
  rw [List.reverse_eq_nil_iff] at hdata
  rw [hdata] at h3
  cases h3

theorem emittedLine_of_ne (i l src : String) (h : pyStrip l ≠ "") :
    emittedLine i l src = { text := i ++ l, source := src } := by
  simp [emittedLine, h]

theorem header_text_not_blank (dn sig : String) :
    pyStrip (".. " ++ domain_name ++ ":" ++ dn ++ ":: " ++ sig) ≠ "" := by
  apply pyStrip_ne_empty _ '.' _ (by decide)
  have h1 : '.' ∈ ".. ".data := by decide
  simp [String.data_append, List.mem_append, h1]

/-- With every variant's `format_options` empty, the header block is the
single directive header line at the node's own indent. -/
theorem headerDelta_eq (doc : Document) (k : Keyword) (i sig : String) :
    headerDelta doc k i sig
      = [{ text := i ++ (".. " ++ domain_name ++ ":" ++ get_directive_name k ++ ":: " ++ sig),
           source := doc.name }] := by
  unfold headerDelta
  rw [emittedLine_of_ne _ _ _ (header_text_not_blank (get_directive_name k) sig)]
  simp [format_options]

theorem emittedLine_text (i l src : String) :
    (emittedLine i l src).text = "" ∨ ∃ t, (emittedLine i l src).text = i ++ t := by
  unfold emittedLine
  split
  · exact Or.inr ⟨l, rfl⟩
  · exact Or.inl rfl

theorem text_mem_rowDelta (doc : Document) (i : String) (b : Bool)
    (row : List String) :
    ∀ l ∈ rowDelta doc i b row, l.text = "" ∨ ∃ t, l.text = i ++ t := by
  induction row generalizing b with
  | nil => intro l hl; cases hl
  | cons cell rest ih =>
      intro l hl
      rcases List.mem_cons.1 hl with hhead | htail
      · cases b <;> rw [hhead] <;>
          simp only [rowDelta, Bool.false_eq_true, ite_false, ite_true] <;>
          exact emittedLine_text _ _ _
      · exact ih false l htail

theorem text_mem_rowsDelta (doc : Document) (i : String)
    (rows : List (List String)) :
    ∀ l ∈ rowsDelta doc i rows, l.text = "" ∨ ∃ t, l.text = i ++ t := by
  induction rows with
  | nil => intro l hl; cases hl
  | cons row rest ih =>
      intro l hl
      rcases List.mem_append.1 hl with hr | hrest
      · exact text_mem_rowDelta doc i true row l hr
      · exact ih l hrest

theorem text_mem_datatableDelta (doc : Document) (i : String) (dt : DataTable) :
    ∀ l ∈ datatableDelta doc i dt, l.text = "" ∨ ∃ t, l.text = i ++ t := by
  intro l hl
  unfold datatableDelta at hl
  rcases List.mem_cons.1 hl with h1 | hl
  · rw [h1]; exact emittedLine_text _ _ _
  rcases List.mem_cons.1 hl with h2 | hl
  · rw [h2]; exact emittedLine_text _ _ _
  exact text_mem_rowsDelta doc i dt.values l hl

theorem text_mem_baseContentDelta (i : String) (more : List Line) :
    ∀ l ∈ baseContentDelta i more, l.text = "" ∨ ∃ t, l.text = i ++ t := by
  intro l hl
  unfold baseContentDelta at hl
  split at hl
  · cases hl
  · rcases List.mem_map.1 hl with ⟨cl, _, hcl⟩
    rw [← hcl]
    exact emittedLine_text _ _ _

theorem text_mem_docstringDelta (doc : Document) (i : String)
    (ds : Option Docstring) :
    ∀ l ∈ docstringDelta doc i ds, l.text = "" ∨ ∃ t, l.text = i ++ t := by
  intro l hl
  cases ds with
  | none => cases hl
  | some d =>
      unfold docstringDelta at hl
      rcases List.mem_cons.1 hl with h1 | hl
      · rw [h1]; exact emittedLine_text _ _ _
      rcases List.mem_cons.1 hl with h2 | hl
      · rw [h2]; exact emittedLine_text _ _ _
      rcases List.mem_append.1 hl with hmap | hlast
      · rcases List.mem_map.1 hmap with ⟨line, _, hline⟩
        rw [← hline]
        exact emittedLine_text _ _ _
      · rcases List.mem_singleton.1 hlast with h3
        rw [h3]; exact emittedLine_text _ _ _

theorem text_mem_stepTableDelta (doc : Document) (i : String)
    (dt : Option DataTable) :
    ∀ l ∈ stepTableDelta doc i dt, l.text = "" ∨ ∃ t, l.text = i ++ t := by
  intro l hl
  cases dt with
  | none => cases hl
  | some t =>
      unfold stepTableDelta at hl
      rcases List.mem_append.1 hl with htab | hlast
      · exact text_mem_datatableDelta doc i t l htab
      · rcases List.mem_singleton.1 hlast with h3
        rw [h3]; exact emittedLine_text _ _ _

theorem text_mem_contentDelta (doc : Document) (k : Keyword) (i : String)
    (more : List Line) :
    ∀ l ∈ contentDelta doc k i more, l.text = "" ∨ ∃ t, l.text = i ++ t := by
  intro l hl
  cases k with
  | feature kw su de cs =>
      unfold contentDelta at hl
      rcases List.mem_append.1 hl with hmap | hbase
      · rcases List.mem_map.1 hmap with ⟨line, _, hline⟩
        rw [← hline]
        exact emittedLine_text _ _ _
      · exact text_mem_baseContentDelta i more l hbase
  | step kw su ds dt =>
      unfold contentDelta at hl
      rcases List.mem_append.1 hl with hdd | hbase
      · rcases List.mem_append.1 hdd with hds | hdt
        · exact text_mem_docstringDelta doc i ds l hds
        · exact text_mem_stepTableDelta doc i dt l hdt
      · exact text_mem_baseContentDelta i more l hbase
  | examples kw su dt =>
      unfold contentDelta at hl
      rcases List.mem_append.1 hl with hdd | hbase
      · rcases List.mem_append.1 hdd with htab | hblank
        · exact text_mem_datatableDelta doc i dt l htab
        · rcases List.mem_singleton.1 hblank with h3
          rw [h3]; exact emittedLine_text _ _ _
      · exact text_mem_baseContentDelta i more l hbase
  | rule kw su cs => exact text_mem_baseContentDelta i more l hl
  | background kw su cs => exact text_mem_baseContentDelta i more l hl
  | scenario kw su st ex => exact text_mem_baseContentDelta i more l hl

theorem text_mem_headerDelta (doc : Document) (k : Keyword) (i sig : String) :
    ∀ l ∈ headerDelta doc k i sig, l.text = "" ∨ ∃ t, l.text = i ++ t := by
  intro l hl
  unfold headerDelta at hl
  rcases List.mem_cons.1 hl with h1 | hl
  · rw [h1]; exact emittedLine_text _ _ _
  · rcases List.mem_map.1 hl with ⟨nv, _, hnv⟩
    rw [← hnv]
    exact emittedLine_text _ _ _

theorem text_mem_ownDelta (doc : Document) (k : Keyword) (i : String)
    (more : List Line) :
    ∀ l ∈ ownDelta doc k i more, l.text = "" ∨ ∃ t, l.text = i ++ t := by
  intro l hl
  unfold ownDelta at hl
  rcases List.mem_append.1 hl with hfront | hclose
  rcases List.mem_append.1 hfront with hfront | hcontent
  rcases List.mem_append.1 hfront with hheader | hblank
  · exact text_mem_headerDelta doc k i k.summary l hheader
  · rcases List.mem_singleton.1 hblank with h3
    rw [h3]; exact emittedLine_text _ _ _
  · rcases text_mem_contentDelta doc k (i ++ content_indent) more l hcontent with
      hblank | ⟨t, ht⟩
    · exact Or.inl hblank
    · exact Or.inr ⟨content_indent ++ t, by rw [ht, String.append_assoc]⟩
  · rcases List.mem_singleton.1 hclose with h3
    rw [h3]
    rcases emittedLine_text (i ++ content_indent) "" doc.name with hblank | ⟨t, ht⟩
    · exact Or.inl hblank
    · exact Or.inr ⟨content_indent ++ t, by rw [ht, String.append_assoc]⟩

mutual
theorem text_mem_genDelta (doc : Document) (k : Keyword) (i : String)
    (more : List Line) :
    ∀ l ∈ genDelta doc k i more, l.text = "" ∨ ∃ t, l.text = i ++ t := by
  intro l hl
  rw [genDelta] at hl
  rcases List.mem_append.1 hl with hown | hchildren
  · exact text_mem_ownDelta doc k i more l hown
  · rcases text_mem_childrenDelta doc k.get_child_keywords (i ++ content_indent) l
        hchildren with hblank | ⟨t, ht⟩
    · exact Or.inl hblank
    · exact Or.inr ⟨content_indent ++ t, by rw [ht, String.append_assoc]⟩
termination_by sizeOf k
decreasing_by
  exact sizeOf_get_child_keywords k

theorem text_mem_childrenDelta (doc : Document) (cs : List Keyword) (i : String) :
    ∀ l ∈ childrenDelta doc cs i, l.text = "" ∨ ∃ t, l.text = i ++ t := by
  intro l hl
  match cs with
  | [] =>
      rw [childrenDelta] at hl
      cases hl
  | c :: rest =>
      rw [childrenDelta] at hl
      rcases List.mem_append.1 hl with hc | hrest
      · exact text_mem_genDelta doc c i [] l hc
      · exact text_mem_childrenDelta doc rest i l hrest
termination_by sizeOf cs
decreasing_by
  all_goals (simp <;> omega)
end

/-! ## Claim theorems -/

theorem star_line_not_blank (cell : String) :
    pyStrip (content_indent ++ "* - " ++ cell) ≠ "" := by
  apply pyStrip_ne_empty _ '*' _ (by decide)
  have h1 : '*' ∈ "* - ".data := by decide
  simp [String.data_append, List.mem_append, h1]

theorem dash_line_not_blank (cell : String) :
    pyStrip (content_indent ++ "  - " ++ cell) ≠ "" := by
  apply pyStrip_ne_empty _ '-' _ (by decide)
  have h1 : '-' ∈ "  - ".data := by decide
  simp [String.data_append, List.mem_append, h1]

theorem marker_line_not_blank : pyStrip ".. list-table::" ≠ "" := by
  apply pyStrip_ne_empty _ '.' _ (by decide)
  decide

theorem rowDelta_false_eq (doc : Document) (i : String) (row : List String) :
    rowDelta doc i false row
      = row.map (fun cell =>
          { text := i ++ (content_indent ++ "  - " ++ cell), source := doc.name }) := by
  induction row with
  | nil => simp [rowDelta]
  | cons cell rest ih =>
      simp only [rowDelta, Bool.false_eq_true, ite_false, List.map_cons]
      rw [ih, emittedLine_of_ne _ _ _ (dash_line_not_blank cell)]

theorem rowDelta_true_eq (doc : Document) (i : String) (c : String)
    (rest : List String) :
    rowDelta doc i true (c :: rest)
      = { text := i ++ (content_indent ++ "* - " ++ c), source := doc.name }
          :: rest.map (fun cell =>
            { text := i ++ (content_indent ++ "  - " ++ cell), source := doc.name }) := by
  simp only [rowDelta, ite_true]
  rw [rowDelta_false_eq, emittedLine_of_ne _ _ _ (star_line_not_blank c)]

/-- C8: for every data table, `format_datatable` emits the `.. list-table::`
marker line and a blank line, then per row one `* - <cell>` line for the
first cell and one `  - <cell>` continuation line per subsequent cell (all
one `content_indent` inside the current indent); the rows
`[["a","b"],["c","d"]]` yield exactly `* - a`, `  - b`, `* - c`, `  - d`
under the marker, and a table with zero rows yields the marker plus the
blank line and nothing else. -/
theorem c8_format_datatable (doc : Document) (i : String)
    (rows : List (List String)) (s : GenState) :
    ((format_datatable doc i ⟨rows⟩ s).result
      = s.result
        ++ { text := i ++ ".. list-table::", source := doc.name }
          :: { text := "", source := doc.name }
          :: rowsDelta doc i rows)
    ∧ (∀ c rest, rowDelta doc i true (c :: rest)
        = { text := i ++ (content_indent ++ "* - " ++ c), source := doc.name }
            :: rest.map (fun cell =>
              { text := i ++ (content_indent ++ "  - " ++ cell),
                source := doc.name }))
    ∧ ((format_datatable doc i ⟨[["a", "b"], ["c", "d"]]⟩ s).result
      = s.result
        ++ [{ text := i ++ ".. list-table::", source := doc.name },
            { text := "", source := doc.name },
            { text := i ++ "    * - a", source := doc.name },
            { text := i ++ "      - b", source := doc.name },
            { text := i ++ "    * - c", source := doc.name },
            { text := i ++ "      - d", source := doc.name }])
    ∧ ((format_datatable doc i ⟨[]⟩ s).result
      = s.result
        ++ [{ text := i ++ ".. list-table::", source := doc.name },
            { text := "", source := doc.name }]) := by
  have hgen : ∀ rws : List (List String),
      (format_datatable doc i ⟨rws⟩ s).result
        = s.result
          ++ { text := i ++ ".. list-table::", source := doc.name }
            :: { text := "", source := doc.name }
            :: rowsDelta doc i rws := by
    intro rws
    rw [format_datatable_result]
    unfold datatableDelta
    rw [emittedLine_of_ne _ _ _ marker_line_not_blank]
    rfl
  refine ⟨hgen rows, fun c rest => rowDelta_true_eq doc i c rest, ?_, ?_⟩
  · rw [hgen [["a", "b"], ["c", "d"]]]
    simp only [rowsDelta, rowDelta_true_eq, List.map_cons, List.map_nil]
    have e1 : content_indent ++ "* - " ++ "a" = "    * - a" := by decide
    have e2 : content_indent ++ "  - " ++ "b" = "      - b" := by decide
    have e3 : content_indent ++ "* - " ++ "c" = "    * - c" := by decide
    have e4 : content_indent ++ "  - " ++ "d" = "      - d" := by decide
    rw [e1, e2, e3, e4]
    simp
  · rw [hgen []]
    simp [rowsDelta]

/-- C4: for every keyword kind, `generate` emits exactly one directive
header line, built from the resolved directive name (the variant's
`objtype` tag, except Step which uses the lowercase colon-stripped step
keyword) and the node's summary, and this line is the first line of the
node's emission, preceding all content and all child output. -/
theorem c4_directive_header (doc : Document) (k : Keyword) (i : String)
    (more : List Line) (s : GenState) :
    (∃ rest,
      (generate doc k i more s).result
        = s.result
          ++ { text := i ++ (".. " ++ domain_name ++ ":" ++ get_directive_name k
                  ++ ":: " ++ k.summary),
               source := doc.name } :: rest)
    ∧ (∀ kw su ds dt, get_directive_name (.step kw su ds dt)
        = pyLower (pyStripP (fun c => c == ':') (pyStrip kw)))
    ∧ (∀ kw su de cs, get_directive_name (.feature kw su de cs) = "feature")
    ∧ (∀ kw su cs, get_directive_name (.rule kw su cs) = "rule")
    ∧ (∀ kw su cs, get_directive_name (.background kw su cs) = "background")
    ∧ (∀ kw su st ex, get_directive_name (.scenario kw su st ex) = "scenario")
    ∧ (∀ kw su dt, get_directive_name (.examples kw su dt) = "examples") := by
  refine ⟨⟨emittedLine i "" doc.name
      :: (contentDelta doc k (i ++ content_indent) more
          ++ [emittedLine (i ++ content_indent) "" doc.name]
          ++ childrenDelta doc k.get_child_keywords (i ++ content_indent)), ?_⟩,
    fun kw su ds dt => rfl, fun kw su de cs => rfl, fun kw su cs => rfl,
    fun kw su cs => rfl, fun kw su st ex => rfl, fun kw su dt => rfl⟩
  rw [generate_result, genDelta]
  unfold ownDelta
  rw [headerDelta_eq]
  simp [List.append_assoc]

/-- C6: the children a Scenario Documenter generates are all its Step
children followed by all its Examples children
(`get_child_keywords = [*steps, *examples]`), so in the emitted output
every Step child's block precedes every Examples child's block. -/
theorem c6_scenario_child_order (doc : Document) (kw su : String)
    (steps exs : List Keyword) (i : String) (more : List Line) (s : GenState) :
    Keyword.get_child_keywords (.scenario kw su steps exs) = steps ++ exs
    ∧ (generate doc (.scenario kw su steps exs) i more s).result
      = s.result
        ++ ownDelta doc (.scenario kw su steps exs) i more
        ++ childrenDelta doc steps (i ++ content_indent)
        ++ childrenDelta doc exs (i ++ content_indent) := by
  refine ⟨rfl, ?_⟩
  rw [generate_result, genDelta]
  have : Keyword.get_child_keywords (.scenario kw su steps exs) = steps ++ exs := rfl
  rw [this, childrenDelta_append]
  simp [List.append_assoc]

/-- C7: a Step Documenter's content is emitted in a fixed order: the
docstring code block (empty block when there is no docstring) precedes the
data-table block (empty block when there is no data table), and both
precede the supplementary body content; the absent pieces contribute no
lines. -/
theorem c7_step_content_order (doc : Document) (kw su : String)
    (ds : Option Docstring) (dt : Option DataTable) (i : String)
    (more : List Line) (s : GenState) :
    (add_content doc (.step kw su ds dt) i more s).result
      = s.result ++ docstringDelta doc i ds ++ stepTableDelta doc i dt
          ++ baseContentDelta i more
    ∧ docstringDelta doc i none = []
    ∧ stepTableDelta doc i none = [] := by
  refine ⟨?_, rfl, rfl⟩
  rw [add_content_result]
  simp [contentDelta, List.append_assoc]

/-- C5: indentation discipline. The emission of one node decomposes into
the header at the node's own indent, a blank line, the content one
`content_indent` unit deeper, a closing blank line, and the children's
blocks generated at the deeper indent; every non-blank content or child
line carries the node's indent plus exactly one unit as a prefix, and
every non-blank line the node appends at all carries the node's indent as
a prefix. -/
theorem c5_indentation (doc : Document) (k : Keyword) (i : String)
    (more : List Line) (s : GenState) :
    ((generate doc k i more s).result
      = s.result
        ++ headerDelta doc k i k.summary
        ++ [emittedLine i "" doc.name]
        ++ contentDelta doc k (i ++ content_indent) more
        ++ [emittedLine (i ++ content_indent) "" doc.name]
        ++ childrenDelta doc k.get_child_keywords (i ++ content_indent))
    ∧ headerDelta doc k i k.summary
      = [{ text := i ++ (".. " ++ domain_name ++ ":" ++ get_directive_name k
              ++ ":: " ++ k.summary),
           source := doc.name }]
    ∧ (∀ l ∈ contentDelta doc k (i ++ content_indent) more,
        l.text = "" ∨ ∃ t, l.text = (i ++ content_indent) ++ t)
    ∧ (∀ l ∈ childrenDelta doc k.get_child_keywords (i ++ content_indent),
        l.text = "" ∨ ∃ t, l.text = (i ++ content_indent) ++ t)
    ∧ (∀ l ∈ (generate doc k i more s).result,
        l ∈ s.result ∨ l.text = "" ∨ ∃ t, l.text = i ++ t) := by
  refine ⟨?_, headerDelta_eq doc k i k.summary,
    text_mem_contentDelta doc k (i ++ content_indent) more,
    text_mem_childrenDelta doc k.get_child_keywords (i ++ content_indent), ?_⟩
  · rw [generate_result, genDelta]
    unfold ownDelta
    simp [List.append_assoc]
  · intro l hl
    rw [generate_result] at hl
    rcases List.mem_append.1 hl with hold | hnew
    · exact Or.inl hold
    · exact Or.inr (text_mem_genDelta doc k i more l hnew)

/-- C9: the documented-keyword scope snapshot is the `(label, summary)`
sequence of the document ancestry in root-to-leaf order — the exact
reversal of `get_ancestry`'s leaf-to-root order, so its first entry comes
from the ancestry's root end and its last entry from the ancestry's leaf
end — and `generate` publishes it to the shared ref-context entry before
the node's content is emitted: the state handed to `add_content` already
carries the snapshot. -/
theorem c9_scope_root_to_leaf (doc : Document) (k : Keyword) (i : String)
    (more : List Line) (s : GenState) :
    documented_keyword doc k
      = ((doc.get_ancestry k).reverse).map (fun w => (w.keyword, w.summary))
    ∧ (documented_keyword doc k).head?
      = ((doc.get_ancestry k).getLast?).map (fun w => (w.keyword, w.summary))
    ∧ (documented_keyword doc k).getLast?
      = ((doc.get_ancestry k).head?).map (fun w => (w.keyword, w.summary))
    ∧ ∃ s4 : GenState,
        s4.scope = some (documented_keyword doc k)
        ∧ genOwn doc k i more s
          = add_line (i ++ content_indent) "" doc.name
              (add_content doc k (i ++ content_indent) more s4)
        ∧ generate doc k i more s
          = genChildren doc k.get_child_keywords (i ++ content_indent)
              (genOwn doc k i more s) := by
  refine ⟨rfl, ?_, ?_, ?_⟩
  · unfold documented_keyword
    rw [List.head?_map, List.head?_reverse]
  · unfold documented_keyword
    rw [List.getLast?_map, List.getLast?_reverse]
  · refine ⟨set_scope (documented_keyword doc k)
        (add_line i "" doc.name
          (add_directive_header doc k i k.summary (record_dependency doc s))),
      rfl, rfl, ?_⟩
    rw [generate]

/-- C10: the published scope is never restored after child generation:
after `generate` returns on a node with at least one child keyword, the
shared ref-context entry holds the snapshot of the last descendant
generated in the recursive walk, which differs from the node's own
snapshot whenever the two snapshots differ. -/
theorem c10_scope_not_restored (doc : Document) (k : Keyword) (i : String)
    (more : List Line) (s : GenState)
    (_hc : k.get_child_keywords ≠ [])
    (hne : documented_keyword doc (lastDescendant k) ≠ documented_keyword doc k) :
    (generate doc k i more s).scope
      = some (documented_keyword doc (lastDescendant k))
    ∧ (generate doc k i more s).scope ≠ some (documented_keyword doc k) := by
  refine ⟨generate_scope doc k i more s, ?_⟩
  rw [generate_scope doc k i more s]
  intro h
  exact hne (Option.some.inj h)

/-- C1 (amended): `run` looks the Documenter up outside its `try` block
(lines 91 to 93 before line 96 of `autodoc.py`), so when no Documenter is
registered under the resolved objtype tag, `run` raises an unhandled
`KeyError` and reports no diagnostic instead of converting the failure to
a recoverable diagnostic with empty output. -/
theorem c1_unregistered_kind_raises (documenters : List (String × DocumenterClass))
    (d : Directive) (kw_label : String)
    (get_def : Except PyExn (Document × Keyword))
    (h : lookupAssoc documenters (keyword_to_objtype kw_label) = none) :
    run documenters d kw_label get_def
      = { diagnostics := [],
          outcome := .error (.keyError (keyword_to_objtype kw_label)) } := by
  unfold run
  dsimp only
  rw [h]

theorem assemble_error_of_bad_option (opts : List (String × String))
    (spec : List (String × (String → Option String)))
    (hbad : ∃ nv ∈ opts, lookupAssoc spec nv.1 = none ∨
        ∃ conv, lookupAssoc spec nv.1 = some conv ∧ conv nv.2 = none) :
    ∃ e, assemble_option_dict opts spec = .error e
        ∧ catchableOptionError e = true := by
  induction opts with
  | nil =>
      rcases hbad with ⟨nv, hmem, _⟩
      cases hmem
  | cons hd rest ih =>
      obtain ⟨nm, val⟩ := hd
      rcases hbad with ⟨nv, hmem, hcase⟩
      rcases List.mem_cons.1 hmem with heq | hmemrest
      · subst heq
        rcases hcase with hnone | ⟨conv, hconv, hfail⟩
        · exact ⟨.keyError nm,
            by simp only [assemble_option_dict]; simp [hnone], rfl⟩
        · exact ⟨.valueError nm,
            by simp only [assemble_option_dict]; simp [hconv, hfail], rfl⟩
      · cases hlk : lookupAssoc spec nm with
        | none => exact ⟨.keyError nm,
            by simp only [assemble_option_dict]; simp [hlk], rfl⟩
        | some conv =>
            cases hcv : conv val with
            | none => exact ⟨.valueError nm,
                by simp only [assemble_option_dict]; simp [hlk, hcv], rfl⟩
            | some v =>
                rcases ih ⟨nv, hmemrest, hcase⟩ with ⟨e, he, hc⟩
                exact ⟨e,
                  by simp only [assemble_option_dict]; simp [hlk, hcv, he], hc⟩

/-- C2: when the raw options of a dispatched directive contain an unknown
option name or a value failing type coercion against the resolved
Documenter's `option_spec`, `run` reports exactly one recoverable
diagnostic, located at the invocation's `(docname, lineno)`, and returns
the empty result with no unhandled exception. -/
theorem c2_invalid_option (documenters : List (String × DocumenterClass))
    (d : Directive) (kw_label : String)
    (get_def : Except PyExn (Document × Keyword)) (dc : DocumenterClass)
    (hreg : lookupAssoc documenters (keyword_to_objtype kw_label) = some dc)
    (hbad : ∃ nv ∈ d.options, lookupAssoc dc.option_spec nv.1 = none ∨
        ∃ conv, lookupAssoc dc.option_spec nv.1 = some conv ∧ conv nv.2 = none) :
    (run documenters d kw_label get_def).outcome = .ok []
    ∧ ∃ msg, (run documenters d kw_label get_def).diagnostics
        = [{ message := msg, docname := d.docname, line := d.lineno }] := by
  rcases assemble_error_of_bad_option d.options dc.option_spec hbad with
    ⟨e, he, hc⟩
  have hrun : run documenters d kw_label get_def
      = { diagnostics :=
            [{ message := option_error_message d.name e,
               docname := d.docname,
               line := d.lineno }],
          outcome := .ok [] } := by
    unfold run
    dsimp only
    rw [hreg]
    dsimp only
    rw [he]
    simp [hc]
  rw [hrun]
  exact ⟨rfl, option_error_message d.name e, rfl⟩

theorem feature_member_loop_of_first (documents : List (String × Document))
    (sig : String) (pre : List String) (r : String) (post : List String)
    (document : Document)
    (hpre : ∀ r' ∈ pre, lookupAssoc documents (joinpath r' sig) = none)
    (hr : lookupAssoc documents (joinpath r sig) = some document) :
    feature_member_loop documents (pre ++ r :: post) sig = some document := by
  induction pre with
  | nil =>
      simp only [List.nil_append]
      unfold feature_member_loop
      dsimp only
      rw [hr]
  | cons p rest ih =>
      rw [List.cons_append]
      unfold feature_member_loop
      dsimp only
      rw [hpre p (List.mem_cons_self p rest)]
      exact ih (fun r' hr' => hpre r' (List.mem_cons_of_mem p hr'))

theorem feature_member_loop_of_none (documents : List (String × Document))
    (sig : String) (roots : List String)
    (hall : ∀ r ∈ roots, lookupAssoc documents (joinpath r sig) = none) :
    feature_member_loop documents roots sig = none := by
  induction roots with
  | nil => rfl
  | cons p rest ih =>
      unfold feature_member_loop
      dsimp only
      rw [hall p (List.mem_cons_self p rest)]
      exact ih (fun r' hr' => hall r' (List.mem_cons_of_mem p hr'))

/-- C3: Feature reference resolution joins each configured source root
with the reference in order and tests membership in the document store by
the joined path; the first root whose joined path is stored yields that
document and its root feature, and when no root matches, resolution falls
back to the store's default fully-qualified `find_one` lookup (whose
not-found failure is then the overall result). -/
theorem c3_feature_reference_resolution (store : DocumentStore) (sig : String) :
    (∀ (pre : List String) (r : String) (post : List String)
        (document : Document),
        (∀ r' ∈ pre, lookupAssoc store.documents (joinpath r' sig) = none) →
        lookupAssoc store.documents (joinpath r sig) = some document →
        auto_feature_get_gherkin_definition store (pre ++ r :: post) sig
          = .ok (document, document.feature))
    ∧ (∀ roots : List String,
        (∀ r ∈ roots, lookupAssoc store.documents (joinpath r sig) = none) →
        auto_feature_get_gherkin_definition store roots sig
          = store.find_one (get_name sig)) := by
  constructor
  · intro pre r post document hpre hr
    unfold auto_feature_get_gherkin_definition
    rw [feature_member_loop_of_first store.documents sig pre r post document hpre hr]
  · intro roots hall
    unfold auto_feature_get_gherkin_definition
    rw [feature_member_loop_of_none store.documents sig roots hall]
    rfl

/-! ## Concrete fixtures -/

/-- A concrete Step node with a docstring and a data table. -/
def stepW : Keyword :=
  .step "Given " "a precondition" (some { mediatype := "text", content := "line1\nline2" })
    (some { values := [["a", "b"]] })

/-- A concrete Examples node. -/
def examplesW : Keyword :=
  .examples "Examples" "some examples" { values := [["x"]] }

/-- A concrete Scenario node holding one Step and one Examples block. -/
def scenarioW : Keyword :=
  .scenario "Scenario" "a scenario" [stepW] [examplesW]

/-- A concrete Feature node holding one Scenario. -/
def featureW : Keyword :=
  .feature "Feature" "a feature" "desc" [scenarioW]

/-- The concrete ancestry lookup (leaf-to-root) of the fixture tree,
keyed by the node summaries. -/
def ancestryW : Keyword → List Keyword := fun k =>
  if k.summary = "a feature" then [featureW]
  else if k.summary = "a scenario" then [scenarioW, featureW]
  else if k.summary = "a precondition" then [stepW, scenarioW, featureW]
  else if k.summary = "some examples" then [examplesW, scenarioW, featureW]
  else []

/-- A concrete Document owning the fixture Feature. -/
def docW : Document :=
  { name := "features/w.feature", feature := featureW, get_ancestry := ancestryW }

/-- A concrete directive invocation whose single raw option is unknown to
every fixture Documenter. -/
def dirW : Directive :=
  { name := "gherkin:autoscenario", docname := "index", lineno := some 3,
    options := [("unknown-option", "1")], content := [] }

/-- The `flag` option converter: accepts only a null value. -/
def flagConv : String → Option String :=
  fun v => if v = "" then some "" else none

/-- A concrete Documenter class with the `noindex` flag option. -/
def dcW : DocumenterClass :=
  { option_spec := [("noindex", flagConv)] }

/-- A concrete registry holding the scenario Documenter only. -/
def documentersW : List (String × DocumenterClass) :=
  [("scenario", dcW)]

/-- A concrete document store keyed by source path, whose fully-qualified
lookup always fails with not-found. -/
def storeW : DocumentStore :=
  { documents := [("/docs/features/login.feature", docW)],
    find_one := fun r => .error (.notFound r) }

theorem lastDescendant_scenarioW : lastDescendant scenarioW = examplesW := by
  rw [lastDescendant_of_getLast?_some scenarioW examplesW rfl,
    lastDescendant_of_getLast?_none examplesW rfl]

/-! ## Witnesses and counterexample -/

/-- C1 counterexample: with no Documenter registered under the resolved
objtype tag `"scenario"`, `run` ends in an unhandled `KeyError` and
reports no diagnostic, contradicting the claim that such a failure is
reported as a recoverable diagnostic. -/
theorem c1_counterexample :
    (run [] dirW (directive_keyword "gherkin:autoscenario")
        (.error (.notFound "unused"))).outcome
      = .error (.keyError "scenario")
    ∧ (run [] dirW (directive_keyword "gherkin:autoscenario")
        (.error (.notFound "unused"))).diagnostics = [] := by
  constructor
  · rfl
  · rfl

/-- Witness for the amended C1 at the empty registry. -/
theorem c1_witness :
    run [] dirW (directive_keyword "gherkin:autoscenario")
        (.error (.notFound "unused"))
      = { diagnostics := [],
          outcome := .error (.keyError
            (keyword_to_objtype (directive_keyword "gherkin:autoscenario"))) } :=
  c1_unregistered_kind_raises [] dirW (directive_keyword "gherkin:autoscenario")
    (.error (.notFound "unused")) rfl

/-- Witness for C2 at a concrete directive with one unknown option. -/
theorem c2_witness :
    (run documentersW dirW "Scenario" (.error (.notFound "unused"))).outcome
      = .ok []
    ∧ ∃ msg, (run documentersW dirW "Scenario"
        (.error (.notFound "unused"))).diagnostics
        = [{ message := msg, docname := dirW.docname, line := dirW.lineno }] :=
  c2_invalid_option documentersW dirW "Scenario" (.error (.notFound "unused"))
    dcW rfl
    ⟨("unknown-option", "1"), by decide, Or.inl rfl⟩

/-- Witness for C3 at the spec's example store: the configured root
resolves `login.feature`, and an unmatched root falls back to `find_one`,
which fails with not-found. -/
theorem c3_witness :
    auto_feature_get_gherkin_definition storeW ["/docs/features"] "login.feature"
      = .ok (docW, docW.feature)
    ∧ auto_feature_get_gherkin_definition storeW ["/other"] "login.feature"
      = .error (.notFound "login.feature") := by
  constructor
  · exact (c3_feature_reference_resolution storeW "login.feature").1
      [] "/docs/features" [] docW
      (fun r' hr' => absurd hr' (List.not_mem_nil r')) rfl
  · have h2 := (c3_feature_reference_resolution storeW "login.feature").2
      ["/other"]
      (by
        intro r hr
        have hr' := List.mem_singleton.1 hr
        subst hr'
        rfl)
    exact h2.trans rfl

/-- Witness for C5: a concrete content line of the fixture Step carries
the one-unit-deeper indent as a prefix. -/
theorem c5_witness :
    (emittedLine ("" ++ content_indent) (".. code-block:: " ++ "text")
        docW.name).text = ""
    ∨ ∃ t, (emittedLine ("" ++ content_indent) (".. code-block:: " ++ "text")
        docW.name).text = ("" ++ content_indent) ++ t :=
  (c5_indentation docW stepW "" [] initState).2.2.1
    (emittedLine ("" ++ content_indent) (".. code-block:: " ++ "text") docW.name)
    (by decide)

/-- Witness for C10 at the fixture Scenario: after generation the shared
scope holds the Examples descendant's snapshot, not the Scenario's own. -/
theorem c10_witness :
    (generate docW scenarioW "" [] initState).scope
      = some (documented_keyword docW (lastDescendant scenarioW))
    ∧ (generate docW scenarioW "" [] initState).scope
      ≠ some (documented_keyword docW scenarioW) :=
  c10_scope_not_restored docW scenarioW "" [] initState
    (by simp [scenarioW, Keyword.get_child_keywords])
    (by rw [lastDescendant_scenarioW]; decide)
